import Mathlib

/-!
Verification of the SPI `embedded-hal` adaptation layer of `rppal_sup2w`
(`src/src/spi/hal.rs`) in a shallow embedding.

The physical bus primitive (`Spi::read` / `Spi::write` / `Spi::transfer`) and
the crate's `Error` type live outside `src/`; they are modelled from the
spec at their interface boundary. Everything else is translated directly
from `src/src/spi/hal.rs`.

Bytes are modelled as `Nat` (the code works on `u8` buffers but performs no
arithmetic on bytes, so no wraparound ever matters). Mutable buffers become
values passed in and returned; an external bus with hidden device state is a
record of functions threading an abstract state type `σ`.
-/

set_option autoImplicit false

deriving instance DecidableEq for Except

namespace RppalSpiHal

/-- Kinds of `std::io::Error` used by the adapter. The code in
`src/src/spi/hal.rs` only ever constructs `io::ErrorKind::Other`; one further
kind is carried so that the model does not degenerate. -/
inductive IoErrorKind where
  | other
  | notFound
  deriving DecidableEq, Repr

/-- Modelled from the spec: the crate's unified `Error` type is declared
outside `src/` — "a single tagged value wrapping the underlying transport
failure (I/O-style)". `src/src/spi/hal.rs` constructs it only through
`Error::Io(io::Error::new(kind, msg))`, which this constructor embeds. -/
inductive Error where
  | io (kind : IoErrorKind) (msg : String)
  deriving DecidableEq, Repr

/-- `embedded_hal::spi::ErrorKind` (the interface-generation error
classification consumed by `spi::Error::kind`). -/
inductive SpiErrorKind where
  | overrun
  | modeFault
  | frameFormat
  | chipSelectFault
  | other
  deriving DecidableEq, Repr

/-- `impl spi::Error for Error` (`src/src/spi/hal.rs` lines 14-18): every
unified error is classified as `spi::ErrorKind::Other`. -/
def Error.kind (_ : Error) : SpiErrorKind :=
  SpiErrorKind.other

/-- `nb::Error` of the external `nb` crate: either the non-blocking
"would block" signal or an underlying error. -/
inductive NbError (ε : Type) where
  | wouldBlock
  | other (e : ε)
  deriving DecidableEq, Repr

/-- Modelled from the spec: the Bus Primitive boundary (consumed), here only
its `transfer(read_buf, write_buf) -> Result`, "block-synchronous,
all-or-fail". The primitive owns hidden device state of abstract type `σ`;
a call consumes the state and the two buffers and yields the new state
together with either the bytes clocked in (the new contents of the read
buffer) or a transport failure. -/
structure BusPrimitive (σ : Type) where
  transfer : σ → List Nat → List Nat → σ × Except Error (List Nat)

/-- Model of the `Spi` bus handle (declared outside `src/`): its physical
part is abstract (`bus : σ`), and `last_read` is the one optional buffered
byte that `src/src/spi/hal.rs` reads and writes in its `FullDuplex`
implementation. -/
structure SpiState (σ : Type) where
  bus : σ
  last_read : Option Nat
  deriving DecidableEq, Repr

/-- `FullDuplex::read` for `Spi` (`src/src/spi/hal.rs` lines 69-75):
`self.last_read.take()` — if a buffered byte is present return it and clear
the slot, otherwise signal `nb::Error::WouldBlock`. -/
def fdRead {σ : Type} (s : SpiState σ) : SpiState σ × Except (NbError Error) Nat :=
  match s.last_read with
  | some lastRead => ({ s with last_read := none }, Except.ok lastRead)
  | none => (s, Except.error NbError.wouldBlock)

/-- `FullDuplex::write` for `Spi` (`src/src/spi/hal.rs` lines 77-84): perform
a one-byte block transfer `Spi::transfer(&mut [0], &[byte])`; a transport
failure propagates through `?` as `nb::Error::Other`; on success the byte
received into `read_buffer[0]` becomes the new buffered byte. -/
def fdWrite {σ : Type} (prim : BusPrimitive σ) (s : SpiState σ) (byte : Nat) :
    SpiState σ × Except (NbError Error) Unit :=
  let read_buffer : List Nat := [0]
  match prim.transfer s.bus read_buffer [byte] with
  | (b', Except.error e) => ({ s with bus := b' }, Except.error (NbError.other e))
  | (b', Except.ok rb) =>
      ({ bus := b', last_read := some (rb.headD 0) }, Except.ok ())

/-- `embedded_hal::spi::Operation` (the external interface type consumed by
`SpiDevice::transaction`): a tagged bus operation carrying its byte
buffers or a delay in microseconds. -/
inductive Operation where
  | Read (buf : List Nat)
  | Write (buf : List Nat)
  | Transfer (readBuf writeBuf : List Nat)
  | TransferInPlace (buf : List Nat)
  | DelayUs (us : Nat)
  deriving DecidableEq, Repr

/-- An arbitrary bus implementation `B : SpiBus<u8>` over which
`SimpleHalSpiDevice<B>` is generic: each trait method consumes hidden state
of abstract type `σ` and either fails with `B`'s own error type `ε` or
succeeds, methods with a mutable buffer returning its new contents. -/
structure SpiBusModel (σ ε : Type) where
  read : σ → List Nat → σ × Except ε (List Nat)
  write : σ → List Nat → σ × Except ε Unit
  transfer : σ → List Nat → List Nat → σ × Except ε (List Nat)
  transferInPlace : σ → List Nat → σ × Except ε (List Nat)

/-- One underlying call issued by the transaction executor: either one of the
four `SpiBus` calls or a call to the external delay collaborator. -/
inductive BusEvent where
  | read (buf : List Nat)
  | write (buf : List Nat)
  | transfer (readBuf writeBuf : List Nat)
  | transferInPlace (buf : List Nat)
  | delayUs (us : Nat)
  deriving DecidableEq, Repr

/-- The underlying call that `SpiDevice::transaction` dispatches for a given
operation (`src/src/spi/hal.rs` lines 122-159): Read to `bus.read`, Write to
`bus.write`, Transfer to `bus.transfer`, TransferInPlace to
`bus.transfer_in_place`, DelayUs to `Delay::new().delay_us`. -/
def opEvent : Operation → BusEvent
  | Operation.Read buf => BusEvent.read buf
  | Operation.Write buf => BusEvent.write buf
  | Operation.Transfer readBuf writeBuf => BusEvent.transfer readBuf writeBuf
  | Operation.TransferInPlace buf => BusEvent.transferInPlace buf
  | Operation.DelayUs us => BusEvent.delayUs us

/-- One iteration of the `for op in operations` loop of
`SpiDevice::transaction` for `SimpleHalSpiDevice` (`src/src/spi/hal.rs`
lines 122-159): dispatch `op` to the matching bus call (or, for a delay, to
the external delay collaborator, which cannot fail), record the call issued,
and map a bus failure through `map_err` to the unified `Error::Io` carrying
the message for `op`'s kind. -/
def opStep {σ ε : Type} (bus : SpiBusModel σ ε) (s : σ) :
    Operation → σ × BusEvent × Except Error Unit
  | Operation.Read buf =>
    match bus.read s buf with
    | (s', Except.error _) =>
        (s', BusEvent.read buf,
          Except.error (Error.io IoErrorKind.other
            "SimpleHalSpiDevice read transaction error"))
    | (s', Except.ok _) => (s', BusEvent.read buf, Except.ok ())
  | Operation.Write buf =>
    match bus.write s buf with
    | (s', Except.error _) =>
        (s', BusEvent.write buf,
          Except.error (Error.io IoErrorKind.other
            "SimpleHalSpiDevice write transaction error"))
    | (s', Except.ok _) => (s', BusEvent.write buf, Except.ok ())
  | Operation.Transfer readBuf writeBuf =>
    match bus.transfer s readBuf writeBuf with
    | (s', Except.error _) =>
        (s', BusEvent.transfer readBuf writeBuf,
          Except.error (Error.io IoErrorKind.other
            "SimpleHalSpiDevice read/write transaction error"))
    | (s', Except.ok _) => (s', BusEvent.transfer readBuf writeBuf, Except.ok ())
  | Operation.TransferInPlace buf =>
    match bus.transferInPlace s buf with
    | (s', Except.error _) =>
        (s', BusEvent.transferInPlace buf,
          Except.error (Error.io IoErrorKind.other
            "SimpleHalSpiDevice in-place read/write transaction error"))
    | (s', Except.ok _) => (s', BusEvent.transferInPlace buf, Except.ok ())
  | Operation.DelayUs us => (s, BusEvent.delayUs us, Except.ok ())

/-- `SpiDevice::transaction` for `SimpleHalSpiDevice` (`src/src/spi/hal.rs`
lines 118-162): iterate the operations in order; the `?` operator aborts at
the first failing bus call; an exhausted loop returns `Ok(())`. The model
additionally returns the final bus state and the list of underlying calls
issued, in order. -/
def transaction {σ ε : Type} (bus : SpiBusModel σ ε) (s : σ) :
    List Operation → σ × List BusEvent × Except Error Unit
  | [] => (s, [], Except.ok ())
  | op :: ops =>
    match opStep bus s op with
    | (s', ev, Except.error e) => (s', [ev], Except.error e)
    | (s', ev, Except.ok _) =>
      let rest := transaction bus s' ops
      (rest.1, ev :: rest.2.1, rest.2.2)

/-- The operation kinds distinguished by the executor's error messages. -/
inductive OpKind where
  | read
  | write
  | transfer
  | transferInPlace
  | delay
  deriving DecidableEq, Repr, Fintype

/-- The kind of an operation. -/
def Operation.opKind : Operation → OpKind
  | Operation.Read _ => OpKind.read
  | Operation.Write _ => OpKind.write
  | Operation.Transfer _ _ => OpKind.transfer
  | Operation.TransferInPlace _ => OpKind.transferInPlace
  | Operation.DelayUs _ => OpKind.delay

/-- The human-readable message with which `SpiDevice::transaction` tags a
failure of each operation kind (`src/src/spi/hal.rs` lines 125-154). Delay
operations cannot fail, so no message exists for them; the model returns the
empty string there. -/
def transactionMsg : OpKind → String
  | OpKind.read => "SimpleHalSpiDevice read transaction error"
  | OpKind.write => "SimpleHalSpiDevice write transaction error"
  | OpKind.transfer => "SimpleHalSpiDevice read/write transaction error"
  | OpKind.transferInPlace => "SimpleHalSpiDevice in-place read/write transaction error"
  | OpKind.delay => ""

/-- The bus state after the executor has dispatched the calls for a prefix of
the operation list (state threading of `opStep`). -/
def stateAfter {σ ε : Type} (bus : SpiBusModel σ ε) (s : σ) (ops : List Operation) : σ :=
  ops.foldl (fun st op => (opStep bus st op).1) s

/-- `SpiBus::transfer` for `Spi` (`src/src/spi/hal.rs` lines 32-35): forward
to the inherent `Spi::transfer` (the Bus Primitive), propagating its error
through `?` and discarding its value. The model returns the new handle
state, the new contents of the mutable read buffer (unchanged when the
primitive fails, per the all-or-fail boundary), and the result. -/
def spiBusTransfer {σ : Type} (prim : BusPrimitive σ) (s : SpiState σ)
    (readBuf writeBuf : List Nat) : SpiState σ × List Nat × Except Error Unit :=
  match prim.transfer s.bus readBuf writeBuf with
  | (b', Except.error e) => ({ s with bus := b' }, readBuf, Except.error e)
  | (b', Except.ok rb) => ({ s with bus := b' }, rb, Except.ok ())

/-- `SpiBus::transfer_in_place` for `Spi` (`src/src/spi/hal.rs` lines 37-40):
`let write_buffer = buffer.to_vec()` duplicates the buffer to serve as the
write side (the primitive forbids aliased buffers), then
`self.transfer(buffer, &write_buffer)` reads back into the original buffer.
In the embedding buffers are values, so `to_vec` is the identity. -/
def spiBusTransferInPlace {σ : Type} (prim : BusPrimitive σ) (s : SpiState σ)
    (buffer : List Nat) : SpiState σ × List Nat × Except Error Unit :=
  let write_buffer := buffer
  spiBusTransfer prim s buffer write_buffer

/-- The spec's two-buffer path, stated in the spec's words for comparison
with `spiBusTransferInPlace` (C7): "first copying B into an independent
temporary write buffer and then performing the two-buffer transfer that
reads back into B". -/
def transferViaCopy {σ : Type} (prim : BusPrimitive σ) (s : SpiState σ)
    (buffer : List Nat) : SpiState σ × List Nat × Except Error Unit :=
  let temp := buffer
  spiBusTransfer prim s buffer temp

/-- A bus primitive whose `transfer` echoes the write buffer back into the
read buffer, with trivial device state (the spec's §8 example primitive). -/
def echoPrimitive : BusPrimitive Unit :=
  ⟨fun u _readBuf writeBuf => (u, Except.ok writeBuf)⟩

/-- A bus primitive whose `transfer` always fails, with trivial device
state. -/
def failingPrimitive : BusPrimitive Unit :=
  ⟨fun u _readBuf _writeBuf =>
    (u, Except.error (Error.io IoErrorKind.other "transfer failed"))⟩

/-- The two emulator operations of the full-duplex byte interface. -/
inductive EmuOp where
  | read
  | write (byte : Nat)
  deriving DecidableEq, Repr

/-- Run a sequence of emulator operations on the concrete handle, keeping
only the final handle state. -/
def runEmu {σ : Type} (prim : BusPrimitive σ) : SpiState σ → List EmuOp → SpiState σ
  | s, [] => s
  | s, EmuOp.read :: ops => runEmu prim (fdRead s).1 ops
  | s, EmuOp.write b :: ops => runEmu prim (fdWrite prim s b).1 ops

/-- The spec's two-state machine state for the full-duplex emulator. -/
inductive DuplexAbs where
  | empty
  | holding (b : Nat)
  deriving DecidableEq, Repr

/-- Modelled from the spec (§9): "an explicit two-state machine (Empty,
Holding byte) with transitions driven by attempt_write (Empty or Holding to
Holding, performing a physical transfer) and attempt_read (Holding to Empty,
Empty unchanged/blocked)". A write whose physical transfer fails leaves the
abstract state unchanged. The physical bus state is threaded alongside so
that success of the physical transfer is determined. -/
def absStep {σ : Type} (prim : BusPrimitive σ) (b : σ) (a : DuplexAbs) :
    EmuOp → σ × DuplexAbs
  | EmuOp.read =>
    (b, match a with
        | DuplexAbs.holding _ => DuplexAbs.empty
        | DuplexAbs.empty => DuplexAbs.empty)
  | EmuOp.write byte =>
    match prim.transfer b [0] [byte] with
    | (b', Except.ok rb) => (b', DuplexAbs.holding (rb.headD 0))
    | (b', Except.error _) => (b', a)

/-- Run the spec's two-state machine over a sequence of emulator
operations. -/
def runAbs {σ : Type} (prim : BusPrimitive σ) : σ → DuplexAbs → List EmuOp → σ × DuplexAbs
  | b, a, [] => (b, a)
  | b, a, op :: ops => runAbs prim (absStep prim b a op).1 (absStep prim b a op).2 ops

/-- The abstraction function for C6: the handle's buffered byte viewed as a
two-state machine state. -/
def absOf {σ : Type} (s : SpiState σ) : DuplexAbs :=
  match s.last_read with
  | none => DuplexAbs.empty
  | some b => DuplexAbs.holding b

/-- A bus implementation whose four calls all succeed, with trivial state:
`read` leaves the buffer as it is, `transfer` echoes the write side. -/
def busAllOk : SpiBusModel Unit Unit where
  read := fun u buf => (u, Except.ok buf)
  write := fun u _buf => (u, Except.ok ())
  transfer := fun u _readBuf writeBuf => (u, Except.ok writeBuf)
  transferInPlace := fun u buf => (u, Except.ok buf)

/-- A bus implementation like `busAllOk` except that `write` always fails. -/
def busWriteFails : SpiBusModel Unit Unit where
  read := fun u buf => (u, Except.ok buf)
  write := fun u _buf => (u, Except.error ())
  transfer := fun u _readBuf writeBuf => (u, Except.ok writeBuf)
  transferInPlace := fun u buf => (u, Except.ok buf)

/-! ## Theorems -/

/-- C8: Uniform error classification — every unified `Error` value is
classified at the interface-generation level as the "unspecified/other"
error kind, regardless of the wrapped transport failure. -/
theorem error_kind_uniform (e : Error) : e.kind = SpiErrorKind.other :=
  rfl

/-- C10: Empty transaction succeeds — executing a transaction over an empty
operation list returns success, leaves the bus state unchanged, and issues
no underlying call (neither a bus call nor a delay). -/
theorem transaction_empty {σ ε : Type} (bus : SpiBusModel σ ε) (s : σ) :
    transaction bus s [] = (s, [], Except.ok ()) :=
  rfl

/-- C4: The full-duplex write never signals "would block" — for every
primitive, handle state and byte, `attempt_write` either succeeds, having
performed the one-byte block transfer and stored the received byte as the
buffered byte, or returns the transport error wrapped as `nb::Error::Other`;
in neither case is `nb::Error::WouldBlock` produced. -/
theorem fd_write_never_would_block {σ : Type} (prim : BusPrimitive σ)
    (s : SpiState σ) (byte : Nat) :
    (∃ b' rb, prim.transfer s.bus [0] [byte] = (b', Except.ok rb) ∧
      fdWrite prim s byte =
        ({ bus := b', last_read := some (rb.headD 0) }, Except.ok ())) ∨
    (∃ b' e, prim.transfer s.bus [0] [byte] = (b', Except.error e) ∧
      fdWrite prim s byte = ({ s with bus := b' }, Except.error (NbError.other e))) := by
  rcases h : prim.transfer s.bus [0] [byte] with ⟨b', r⟩
  cases r with
  | ok rb =>
    exact Or.inl ⟨b', rb, rfl, by simp [fdWrite, h]⟩
  | error e =>
    exact Or.inr ⟨b', e, rfl, by simp [fdWrite, h]⟩

/-- C7: In-place transfer equivalence — `transfer_in_place` on a buffer `B`
coincides (same final handle state, same final buffer contents, same
outcome) with the spec's two-buffer path that first copies `B` into an
independent temporary write buffer and then transfers reading back into
`B`; and with an echoing primitive, `transfer_in_place` returns `B`
unchanged and succeeds. -/
theorem transfer_in_place_equiv {σ : Type} (prim : BusPrimitive σ)
    (s : SpiState σ) (buffer : List Nat) :
    spiBusTransferInPlace prim s buffer = transferViaCopy prim s buffer ∧
    ∀ (t : SpiState Unit) (B : List Nat),
      (spiBusTransferInPlace echoPrimitive t B).2.1 = B ∧
      (spiBusTransferInPlace echoPrimitive t B).2.2 = Except.ok () :=
  ⟨rfl, fun _t _B => ⟨rfl, rfl⟩⟩

/-- C3: Full-duplex read — on a handle with no buffered byte, `attempt_read`
signals "would block" and leaves the state unchanged; after an
`attempt_write x` whose one-byte transfer succeeded returning `[r]`, an
immediate `attempt_read` returns exactly `r` and clears the buffered
byte. -/
theorem fd_read_blocks_then_write_read_roundtrip {σ : Type}
    (prim : BusPrimitive σ) (s : SpiState σ) (x r : Nat) (b' : σ)
    (hempty : s.last_read = none)
    (htr : prim.transfer s.bus [0] [x] = (b', Except.ok [r])) :
    fdRead s = (s, Except.error NbError.wouldBlock) ∧
    fdWrite prim s x = ({ bus := b', last_read := some r }, Except.ok ()) ∧
    fdRead (fdWrite prim s x).1 = ({ bus := b', last_read := none }, Except.ok r) := by
  refine ⟨by simp [fdRead, hempty], by simp [fdWrite, htr], ?_⟩
  simp [fdWrite, htr, fdRead]

/-- Witness for C3 at a concrete input: the echoing primitive, a fresh
handle, byte 7. -/
theorem fd_read_blocks_then_write_read_roundtrip_witness :
    fdRead ({ bus := (), last_read := none } : SpiState Unit) =
      ({ bus := (), last_read := none }, Except.error NbError.wouldBlock) ∧
    fdWrite echoPrimitive { bus := (), last_read := none } 7 =
      ({ bus := (), last_read := some 7 }, Except.ok ()) ∧
    fdRead (fdWrite echoPrimitive { bus := (), last_read := none } 7).1 =
      ({ bus := (), last_read := none }, Except.ok 7) :=
  fd_read_blocks_then_write_read_roundtrip echoPrimitive
    { bus := (), last_read := none } 7 7 () rfl rfl

/-- C5: Single-slot overwrite — two consecutive successful `attempt_write`
calls with no intervening `attempt_read` leave only the second write's
received byte buffered, and a subsequent `attempt_read` returns that second
byte. -/
theorem fd_double_write_overwrite {σ : Type} (prim : BusPrimitive σ)
    (s : SpiState σ) (x y r1 r2 : Nat) (b1 b2 : σ)
    (h1 : prim.transfer s.bus [0] [x] = (b1, Except.ok [r1]))
    (h2 : prim.transfer b1 [0] [y] = (b2, Except.ok [r2])) :
    (fdWrite prim (fdWrite prim s x).1 y).1 = { bus := b2, last_read := some r2 } ∧
    fdRead (fdWrite prim (fdWrite prim s x).1 y).1 =
      ({ bus := b2, last_read := none }, Except.ok r2) := by
  constructor <;> simp [fdWrite, h1, h2, fdRead]

/-- Witness for C5 at a concrete input: the echoing primitive, bytes 3 then
5; only 5 remains observable. -/
theorem fd_double_write_overwrite_witness :
    (fdWrite echoPrimitive
        (fdWrite echoPrimitive ({ bus := (), last_read := none } : SpiState Unit) 3).1 5).1 =
      { bus := (), last_read := some 5 } ∧
    fdRead (fdWrite echoPrimitive
        (fdWrite echoPrimitive ({ bus := (), last_read := none } : SpiState Unit) 3).1 5).1 =
      ({ bus := (), last_read := none }, Except.ok 5) :=
  fd_double_write_overwrite echoPrimitive { bus := (), last_read := none }
    3 5 3 5 () () rfl rfl

/-- C9: Write-failure atomicity — when the one-byte transfer fails during
`attempt_write`, the call returns that error wrapped as `nb::Error::Other`,
the buffered byte is exactly as before the call, and a subsequent
`attempt_read` behaves as if the failed write had never been issued. -/
theorem fd_write_failure_atomic {σ : Type} (prim : BusPrimitive σ)
    (s : SpiState σ) (byte : Nat) (b' : σ) (e : Error)
    (h : prim.transfer s.bus [0] [byte] = (b', Except.error e)) :
    fdWrite prim s byte = ({ s with bus := b' }, Except.error (NbError.other e)) ∧
    (fdWrite prim s byte).1.last_read = s.last_read ∧
    (fdRead (fdWrite prim s byte).1).1.last_read = (fdRead s).1.last_read ∧
    (fdRead (fdWrite prim s byte).1).2 = (fdRead s).2 := by
  cases hl : s.last_read <;> simp [fdWrite, fdRead, h, hl]

/-- Witness for C9 at a concrete input: the always-failing primitive on a
handle currently buffering byte 9. -/
theorem fd_write_failure_atomic_witness :
    fdWrite failingPrimitive ({ bus := (), last_read := some 9 } : SpiState Unit) 4 =
      ({ bus := (), last_read := some 9 },
        Except.error (NbError.other (Error.io IoErrorKind.other "transfer failed"))) ∧
    (fdWrite failingPrimitive ({ bus := (), last_read := some 9 } : SpiState Unit) 4).1.last_read =
      some 9 ∧
    (fdRead (fdWrite failingPrimitive
        ({ bus := (), last_read := some 9 } : SpiState Unit) 4).1).1.last_read =
      (fdRead ({ bus := (), last_read := some 9 } : SpiState Unit)).1.last_read ∧
    (fdRead (fdWrite failingPrimitive
        ({ bus := (), last_read := some 9 } : SpiState Unit) 4).1).2 =
      (fdRead ({ bus := (), last_read := some 9 } : SpiState Unit)).2 :=
  fd_write_failure_atomic failingPrimitive { bus := (), last_read := some 9 }
    4 () (Error.io IoErrorKind.other "transfer failed") rfl

/-- The underlying call recorded by one loop iteration is exactly the
dispatch of the operation. -/
theorem opStep_event {σ ε : Type} (bus : SpiBusModel σ ε) (s : σ) (op : Operation) :
    (opStep bus s op).2.1 = opEvent op := by
  cases op with
  | Read buf =>
    rcases h : bus.read s buf with ⟨s', r⟩
    cases r <;> simp [opStep, opEvent, h]
  | Write buf =>
    rcases h : bus.write s buf with ⟨s', r⟩
    cases r <;> simp [opStep, opEvent, h]
  | Transfer readBuf writeBuf =>
    rcases h : bus.transfer s readBuf writeBuf with ⟨s', r⟩
    cases r <;> simp [opStep, opEvent, h]
  | TransferInPlace buf =>
    rcases h : bus.transferInPlace s buf with ⟨s', r⟩
    cases r <;> simp [opStep, opEvent, h]
  | DelayUs us => rfl

/-- When one loop iteration fails, the error it produces is the unified
`Error::Io` carrying the message for the operation's kind. -/
theorem opStep_error_eq {σ ε : Type} (bus : SpiBusModel σ ε) (s : σ) (op : Operation)
    (e : Error) (h : (opStep bus s op).2.2 = Except.error e) :
    e = Error.io IoErrorKind.other (transactionMsg op.opKind) := by
  cases op with
  | Read buf =>
    rcases hr : bus.read s buf with ⟨s', r⟩
    cases r with
    | ok v => simp [opStep, hr] at h
    | error err =>
      simp [opStep, hr, Operation.opKind, transactionMsg] at h ⊢
      exact h.symm
  | Write buf =>
    rcases hr : bus.write s buf with ⟨s', r⟩
    cases r with
    | ok v => simp [opStep, hr] at h
    | error err =>
      simp [opStep, hr, Operation.opKind, transactionMsg] at h ⊢
      exact h.symm
  | Transfer readBuf writeBuf =>
    rcases hr : bus.transfer s readBuf writeBuf with ⟨s', r⟩
    cases r with
    | ok v => simp [opStep, hr] at h
    | error err =>
      simp [opStep, hr, Operation.opKind, transactionMsg] at h ⊢
      exact h.symm
  | TransferInPlace buf =>
    rcases hr : bus.transferInPlace s buf with ⟨s', r⟩
    cases r with
    | ok v => simp [opStep, hr] at h
    | error err =>
      simp [opStep, hr, Operation.opKind, transactionMsg] at h ⊢
      exact h.symm
  | DelayUs us => simp [opStep] at h

/-- Threading one call through `stateAfter`. -/
theorem stateAfter_cons {σ ε : Type} (bus : SpiBusModel σ ε) (s : σ)
    (op : Operation) (ops : List Operation) :
    stateAfter bus s (op :: ops) = stateAfter bus (opStep bus s op).1 ops :=
  rfl

/-- C2: All-success path — when the underlying call of every operation in the
sequence succeeds (at the bus state the executor has threaded up to it), the
executor issues exactly one underlying call per operation, in the sequence's
order and with the dispatch Read to read, Write to write, Transfer to
transfer, TransferInPlace to transfer-in-place and DelayUs to the delay
collaborator, and the transaction returns success. -/
theorem transaction_all_success {σ ε : Type} (bus : SpiBusModel σ ε) (s : σ)
    (ops : List Operation)
    (h : ∀ i : Fin ops.length,
      (opStep bus (stateAfter bus s (ops.take i.1)) (ops.get i)).2.2 = Except.ok ()) :
    (transaction bus s ops).2.1 = ops.map opEvent ∧
    (transaction bus s ops).2.2 = Except.ok () := by
  induction ops generalizing s with
  | nil => exact ⟨rfl, rfl⟩
  | cons op ops ih =>
    have h0 : (opStep bus s op).2.2 = Except.ok () := h ⟨0, Nat.succ_pos _⟩
    rcases hstep : opStep bus s op with ⟨s', ev, r⟩
    rw [hstep] at h0
    cases r with
    | error e => simp at h0
    | ok u =>
      have hev : ev = opEvent op := by
        have h2 := opStep_event bus s op
        rw [hstep] at h2
        exact h2
      have h' : ∀ i : Fin ops.length,
          (opStep bus (stateAfter bus s' (ops.take i.1)) (ops.get i)).2.2 =
            Except.ok () := by
        intro i
        have hsh := h ⟨i.1 + 1, Nat.succ_lt_succ i.2⟩
        rw [List.take_succ_cons, stateAfter_cons, hstep] at hsh
        simpa [List.get_cons_succ] using hsh
      have htr : transaction bus s (op :: ops) =
          ((transaction bus s' ops).1, ev :: (transaction bus s' ops).2.1,
            (transaction bus s' ops).2.2) := by
        simp [transaction, hstep]
      obtain ⟨htrace, hres⟩ := ih s' h'
      rw [htr]
      exact ⟨by simp [htrace, hev], hres⟩

/-- Witness for C2 at a concrete input: five operations, one of each kind,
against the all-succeeding bus. -/
theorem transaction_all_success_witness :
    (transaction busAllOk ()
        [Operation.Read [0], Operation.Write [1], Operation.Transfer [0, 0] [2, 3],
          Operation.TransferInPlace [4], Operation.DelayUs 9]).2.1 =
      [BusEvent.read [0], BusEvent.write [1], BusEvent.transfer [0, 0] [2, 3],
        BusEvent.transferInPlace [4], BusEvent.delayUs 9] ∧
    (transaction busAllOk ()
        [Operation.Read [0], Operation.Write [1], Operation.Transfer [0, 0] [2, 3],
          Operation.TransferInPlace [4], Operation.DelayUs 9]).2.2 = Except.ok () :=
  transaction_all_success busAllOk ()
    [Operation.Read [0], Operation.Write [1], Operation.Transfer [0, 0] [2, 3],
      Operation.TransferInPlace [4], Operation.DelayUs 9]
    (by decide)

/-- C1: Short-circuit on failure — when every operation before index `i`
succeeds and the underlying bus call of operation `i` fails, the executor
issues exactly the calls of operations `0..i` (one each, in order), issues
nothing after the `i`-th operation (neither bus calls nor delays), and
returns the unified error whose description is the message for the failing
operation's kind; the messages of the four bus-operation kinds are pairwise
distinct, so the description identifies the failing kind. -/
theorem transaction_short_circuit {σ ε : Type} (bus : SpiBusModel σ ε) (s : σ)
    (ops : List Operation) (i : Nat) (hi : i < ops.length)
    (hpre : ∀ j : Fin ops.length, j.1 < i →
      (opStep bus (stateAfter bus s (ops.take j.1)) (ops.get j)).2.2 = Except.ok ())
    (hfail : (opStep bus (stateAfter bus s (ops.take i)) (ops.get ⟨i, hi⟩)).2.2 ≠
      Except.ok ()) :
    (transaction bus s ops).2.1 = (ops.take (i + 1)).map opEvent ∧
    (transaction bus s ops).2.2 =
      Except.error (Error.io IoErrorKind.other
        (transactionMsg ((ops.get ⟨i, hi⟩)).opKind)) ∧
    ∀ k k' : OpKind, k ≠ OpKind.delay → k' ≠ OpKind.delay →
      transactionMsg k = transactionMsg k' → k = k' := by
  induction ops generalizing s i with
  | nil => exact absurd hi (Nat.not_lt_zero _)
  | cons op ops ih =>
    cases i with
    | zero =>
      have hf : (opStep bus s op).2.2 ≠ Except.ok () := hfail
      rcases hstep : opStep bus s op with ⟨s', ev, r⟩
      rw [hstep] at hf
      cases r with
      | ok u => exact absurd rfl hf
      | error e =>
        have hev : ev = opEvent op := by
          have h2 := opStep_event bus s op
          rw [hstep] at h2
          exact h2
        have hmsg : e = Error.io IoErrorKind.other (transactionMsg op.opKind) :=
          opStep_error_eq bus s op e (by rw [hstep])
        have htr : transaction bus s (op :: ops) = (s', [ev], Except.error e) := by
          simp [transaction, hstep]
        refine ⟨?_, ?_, by decide⟩
        · rw [htr]
          simp [hev]
        · rw [htr, hmsg]
          rfl
    | succ n =>
      have h0 : (opStep bus s op).2.2 = Except.ok () :=
        hpre ⟨0, Nat.succ_pos _⟩ (Nat.succ_pos n)
      rcases hstep : opStep bus s op with ⟨s', ev, r⟩
      rw [hstep] at h0
      cases r with
      | error e => simp at h0
      | ok u =>
        have hev : ev = opEvent op := by
          have h2 := opStep_event bus s op
          rw [hstep] at h2
          exact h2
        have hn : n < ops.length := Nat.lt_of_succ_lt_succ hi
        have hpre' : ∀ j : Fin ops.length, j.1 < n →
            (opStep bus (stateAfter bus s' (ops.take j.1)) (ops.get j)).2.2 =
              Except.ok () := by
          intro j hj
          have hsh := hpre ⟨j.1 + 1, Nat.succ_lt_succ j.2⟩ (Nat.succ_lt_succ hj)
          rw [List.take_succ_cons, stateAfter_cons, hstep] at hsh
          simpa [List.get_cons_succ] using hsh
        have hfail' : (opStep bus (stateAfter bus s' (ops.take n))
            (ops.get ⟨n, hn⟩)).2.2 ≠ Except.ok () := by
          have hsh := hfail
          rw [List.take_succ_cons, stateAfter_cons, hstep] at hsh
          simpa [List.get_cons_succ] using hsh
        obtain ⟨htrace, hres, hinj⟩ := ih s' n hn hpre' hfail'
        have htr : transaction bus s (op :: ops) =
            ((transaction bus s' ops).1, ev :: (transaction bus s' ops).2.1,
              (transaction bus s' ops).2.2) := by
          simp [transaction, hstep]
        refine ⟨?_, ?_, hinj⟩
        · rw [htr, List.take_succ_cons, List.map_cons]
          simp [htrace, hev]
        · rw [htr]
          exact hres

/-- Witness for C1 at a concrete input: with a bus whose `write` fails, the
sequence [Read, Write, Read, DelayUs] aborts at index 1 with the
write-failure message, issuing only the first two calls. -/
theorem transaction_short_circuit_witness :
    (transaction busWriteFails ()
        [Operation.Read [0], Operation.Write [1], Operation.Read [2],
          Operation.DelayUs 9]).2.1 =
      [BusEvent.read [0], BusEvent.write [1]] ∧
    (transaction busWriteFails ()
        [Operation.Read [0], Operation.Write [1], Operation.Read [2],
          Operation.DelayUs 9]).2.2 =
      Except.error (Error.io IoErrorKind.other
        "SimpleHalSpiDevice write transaction error") ∧
    (∀ k k' : OpKind, k ≠ OpKind.delay → k' ≠ OpKind.delay →
      transactionMsg k = transactionMsg k' → k = k') :=
  transaction_short_circuit busWriteFails ()
    [Operation.Read [0], Operation.Write [1], Operation.Read [2],
      Operation.DelayUs 9]
    1 (by decide) (by decide) (by decide)

/-- The abstraction of a handle ignores the physical bus part. -/
theorem absOf_setBus {σ : Type} (s : SpiState σ) (b' : σ) :
    absOf { s with bus := b' } = absOf s :=
  rfl

/-- Simulation: running any sequence of emulator operations on the concrete
handle tracks the spec's two-state machine step by step, both in the
buffered-byte abstraction and in the physical bus state. -/
theorem runEmu_sim {σ : Type} (prim : BusPrimitive σ) (ops : List EmuOp) :
    ∀ s : SpiState σ,
      (runEmu prim s ops).bus = (runAbs prim s.bus (absOf s) ops).1 ∧
      absOf (runEmu prim s ops) = (runAbs prim s.bus (absOf s) ops).2 := by
  induction ops with
  | nil => exact fun s => ⟨rfl, rfl⟩
  | cons op ops ih =>
    intro s
    cases op with
    | read =>
      cases hl : s.last_read with
      | none =>
        have hc : runEmu prim s (EmuOp.read :: ops) = runEmu prim s ops := by
          simp [runEmu, fdRead, hl]
        have ha : runAbs prim s.bus (absOf s) (EmuOp.read :: ops) =
            runAbs prim s.bus (absOf s) ops := by
          simp [runAbs, absStep, absOf, hl]
        rw [hc, ha]
        exact ih s
      | some v =>
        have hc : runEmu prim s (EmuOp.read :: ops) =
            runEmu prim { s with last_read := none } ops := by
          simp [runEmu, fdRead, hl]
        have ha : runAbs prim s.bus (absOf s) (EmuOp.read :: ops) =
            runAbs prim s.bus DuplexAbs.empty ops := by
          simp [runAbs, absStep, absOf, hl]
        rw [hc, ha]
        have hs := ih { s with last_read := none }
        simpa [absOf] using hs
    | write b =>
      rcases ht : prim.transfer s.bus [0] [b] with ⟨b', r⟩
      cases r with
      | ok rb =>
        have hc : runEmu prim s (EmuOp.write b :: ops) =
            runEmu prim { bus := b', last_read := some (rb.headD 0) } ops := by
          simp [runEmu, fdWrite, ht]
        have ha : runAbs prim s.bus (absOf s) (EmuOp.write b :: ops) =
            runAbs prim b' (DuplexAbs.holding (rb.headD 0)) ops := by
          simp [runAbs, absStep, ht]
        rw [hc, ha]
        have hs := ih { bus := b', last_read := some (rb.headD 0) }
        simpa [absOf] using hs
      | error e =>
        have hc : runEmu prim s (EmuOp.write b :: ops) =
            runEmu prim { s with bus := b' } ops := by
          simp [runEmu, fdWrite, ht]
        have ha : runAbs prim s.bus (absOf s) (EmuOp.write b :: ops) =
            runAbs prim b' (absOf s) ops := by
          simp [runAbs, absStep, ht]
        rw [hc, ha]
        have hs := ih { s with bus := b' }
        simpa [absOf_setBus] using hs

/-- C6: Buffered-byte invariant — starting from a freshly constructed handle
(no buffered byte), every sequence of emulator read/write operations keeps
the handle in lock-step with the spec's two-state machine (Empty /
Holding b), whose state is Holding exactly when a duplex write has been
issued (its physical transfer succeeding) and the corresponding read has not
yet been consumed: the buffered byte under the abstraction `absOf` equals
the machine's state after the same operations, and only these operations
drive it (the physical bus state evolves identically on both sides). -/
theorem fd_buffered_byte_invariant {σ : Type} (prim : BusPrimitive σ) (b0 : σ)
    (ops : List EmuOp) :
    absOf (runEmu prim { bus := b0, last_read := none } ops) =
      (runAbs prim b0 DuplexAbs.empty ops).2 ∧
    (runEmu prim { bus := b0, last_read := none } ops).bus =
      (runAbs prim b0 DuplexAbs.empty ops).1 :=
  ⟨(runEmu_sim prim ops { bus := b0, last_read := none }).2,
   (runEmu_sim prim ops { bus := b0, last_read := none }).1⟩

end RppalSpiHal
